import Mathlib

/-!
Verification development for the Career Mirror ETL scripts
(`etl/load_embeddings.py`, `etl/seed_profiles.py`, `etl/seed_achievements.py`,
`etl/seed_analytics.py`, `etl/utils.py`).

Each script is embedded as a pure Lean function over explicit inputs:
database rows become lists of structures, external services (OpenAI
embedding API, Pinecone, Faker, `random.randint`) become oracle
parameters, and the observable side effects of a run (API calls, SQL
execute calls, commit, close, print) become an event trace.  Fallible
external calls are modelled by oracles returning `Except` / `Bool`; the
Python scripts have no exception handling, so the first failure aborts
the rest of the run, exactly as an uncaught exception would.
-/

namespace CareerMirror

/-! ## Embedding sync (`etl/load_embeddings.py`) -/

/-- A row fetched by `SELECT id, profile_text FROM user_profiles`:
the row identifier and the profile text. -/
structure ProfileRow where
  uid : Nat
  text : String
deriving DecidableEq, Repr

/-- Observable events of a `seed_embeddings` run.  `α` is the type of
embedding vectors returned by the embedding service (kept abstract: the
scripts never inspect the vector, they only pass it to `upsert`). -/
inductive SyncEvent (α : Type) where
  | embedCall (input : String) (model : String)
  | upsert (key : String) (vec : α)
  | printMsg (s : String)
  | closeCur
  | closeConn
deriving DecidableEq, Repr

/-- The `for uid, text in profiles:` loop of `seed_embeddings`.  The
embedding oracle is indexed by the call number so that a transient
API failure at any point of the run is expressible.  On `Except.error`
the loop stops: the exception of `openai.Embedding.create` is uncaught,
so no further row is processed and no upsert for the failing row is
issued. -/
def syncLoop {ε α : Type} (embed : Nat → String → Except ε α) :
    Nat → List ProfileRow → List (SyncEvent α) × Option ε
  | _, [] => ([], none)
  | n, p :: rest =>
    match embed n p.text with
    | .error e => ([.embedCall p.text "text-embedding-ada-002"], some e)
    | .ok v =>
      let r := syncLoop embed (n + 1) rest
      (.embedCall p.text "text-embedding-ada-002" :: .upsert (toString p.uid) v :: r.1, r.2)

/-- `seed_embeddings`: fetch all `(id, profile_text)` rows, embed and
upsert each sequentially, then print the success message and close the
cursor and connection.  The second component is the uncaught error, if
any; the print/close events happen only when the loop finished. -/
def seed_embeddings {ε α : Type} (embed : Nat → String → Except ε α)
    (profiles : List ProfileRow) : List (SyncEvent α) × Option ε :=
  let r := syncLoop embed 0 profiles
  match r.2 with
  | some e => (r.1, some e)
  | none => (r.1 ++ [.printMsg "✅ Embeddings synced", .closeCur, .closeConn], none)

/-- Keys of the upsert calls in a trace, in order. -/
def upsertKeys {α : Type} : List (SyncEvent α) → List String :=
  List.filterMap fun e =>
    match e with
    | .upsert k _ => some k
    | _ => none

/-- Inputs of the embedding-service calls in a trace, in order. -/
def embedInputs {α : Type} : List (SyncEvent α) → List String :=
  List.filterMap fun e =>
    match e with
    | .embedCall s _ => some s
    | _ => none

/-- Whether a trace contains a `printMsg` event. -/
def hasPrint {α : Type} (l : List (SyncEvent α)) : Bool :=
  l.any fun e =>
    match e with
    | .printMsg _ => true
    | _ => false

/-- A concrete embedding oracle for witnesses: the first call succeeds,
every later call fails. -/
def failingEmbed : Nat → String → Except Unit Nat :=
  fun n _ => if n = 0 then Except.ok 0 else Except.error ()

/-- Vector-store administration events at module load of
`load_embeddings.py`. -/
inductive PineconeEvent where
  | listIndexes
  | createIndex (name : String) (dimension : Nat)
deriving DecidableEq, Repr

/-- `index_name = "career-mirror"`. -/
def index_name : String := "career-mirror"

/-- Module-level index ensure: `if index_name not in pinecone.list_indexes():
pinecone.create_index(index_name, dimension=1536)`.  `existing` is the
index list returned by the vector store. -/
def ensureIndex (existing : List String) : List PineconeEvent :=
  if index_name ∈ existing then [.listIndexes]
  else [.listIndexes, .createIndex index_name 1536]

/-- The create-index calls occurring in a trace, in order. -/
def createCalls : List PineconeEvent → List PineconeEvent :=
  List.filter fun e =>
    match e with
    | .createIndex _ _ => true
    | _ => false

/-! ## Shared modelling for the seeder scripts -/

/-- Result of running a seeder script: the observable event trace, the
committed database state after the run, and whether the run finished
without an uncaught exception. -/
structure SeedResult (ev σ : Type) where
  events : List ev
  state : σ
  ok : Bool
deriving DecidableEq, Repr

/-- Whether the table `t` already holds a row whose uniqueness key
(`title`) equals `s`. -/
def hasTitle {ρ : Type} (title : ρ → String) (t : List ρ) (s : String) : Bool :=
  t.any fun x => title x == s

/-- `INSERT ... ON CONFLICT DO NOTHING` on a table whose uniqueness
constraint is on `title`: the row is appended unless a row with the same
title already exists, in which case the statement is a no-op. -/
def insertOnConflict {ρ : Type} (title : ρ → String) (t : List ρ) (r : ρ) : List ρ :=
  if hasTitle title t (title r) then t else t ++ [r]

/-- The always-succeeding execute oracle (a run with no external
failure). -/
def allOk : Nat → Bool := fun _ => true

/-- An execute oracle whose every call fails. -/
def alwaysFail : Nat → Bool := fun _ => false

/-- Count the events of a trace satisfying `p`. -/
def countEvents {ev : Type} (p : ev → Bool) (l : List ev) : Nat :=
  (l.filter p).length

/-- Exactly one commit event occurs and no insert event occurs at or
after it (all inserts precede the single commit). -/
def singleCommitAfterInserts {ev : Type} (isC isI : ev → Bool) (l : List ev) : Bool :=
  (countEvents isC l == 1) && (countEvents isI (l.dropWhile fun e => !isC e) == 0)

/-! ## Achievements seeder (`etl/seed_achievements.py`) -/

/-- A row of the `achievements` table. -/
structure AchRow where
  title : String
  description : String
  points : Nat
deriving DecidableEq, Repr

/-- Observable events of a `seed_achievements` run. -/
inductive AchEvent where
  | insert (title description : String) (points : Nat)
  | commit
  | closeCur
  | closeConn
  | printMsg (s : String)
deriving DecidableEq, Repr

/-- The hardcoded `achievements` list of the script. -/
def achievements : List (String × String × Nat) :=
  [("First Steps", "Completed first analysis", 50),
   ("Learner", "Took a course", 100)]

/-- The `for t,d,p in achievements:` loop of `seed_achievements`,
followed by `conn.commit(); cur.close(); conn.close(); print(...)`.
`insOk` tells whether the `n`-th `cur.execute` call succeeds; an
uncaught execute failure aborts the run, the transaction is never
committed, and the committed table stays `orig`. -/
def seedAchLoop (insOk : Nat → Bool) (orig : List AchRow) :
    Nat → List AchRow → List (String × String × Nat) →
    SeedResult AchEvent (List AchRow)
  | _, pending, [] =>
    ⟨[.commit, .closeCur, .closeConn, .printMsg "✅ Achievements seeded"], pending, true⟩
  | n, pending, (t, d, p) :: rest =>
    if insOk n then
      let r := seedAchLoop insOk orig (n + 1)
        (insertOnConflict AchRow.title pending ⟨t, d, p⟩) rest
      ⟨.insert t d p :: r.events, r.state, r.ok⟩
    else ⟨[], orig, false⟩

/-- `seed_achievements`, run against the committed table `table`. -/
def seed_achievements (insOk : Nat → Bool) (table : List AchRow) :
    SeedResult AchEvent (List AchRow) :=
  seedAchLoop insOk table 0 table achievements

/-- Commit events of the achievements trace. -/
def achIsCommit : AchEvent → Bool
  | .commit => true
  | _ => false

/-- Insert events of the achievements trace. -/
def achIsInsert : AchEvent → Bool
  | .insert _ _ _ => true
  | _ => false

/-! ## Career-paths seeder (`etl/seed_analytics.py`) -/

/-- A row of the `career_paths` table. -/
structure CareerRow where
  title : String
  description : String
  avg_salary : Nat
  lifestyle : String
deriving DecidableEq, Repr

/-- Observable events of a `seed_careers` run. -/
inductive CareerEvent where
  | insert (title description : String) (avg_salary : Nat) (lifestyle : String)
  | commit
  | closeCur
  | closeConn
  | printMsg (s : String)
deriving DecidableEq, Repr

/-- The hardcoded `careers` list of the script. -/
def careers : List String :=
  ["Data Scientist", "Frontend Developer", "Backend Engineer",
   "UX Designer", "AI Researcher"]

/-- `json.dumps({"stress": "medium", "travel": "occasional"})`, the
lifestyle value inserted for every career. -/
def lifestyleJson : String :=
  "\x7b\"stress\": \"medium\", \"travel\": \"occasional\"\x7d"

/-- The `for c in careers:` loop of `seed_careers`, followed by
`conn.commit(); cur.close(); conn.close(); print(...)`.  `salary` is the
`random.randint(60000,180000)` draw at each loop position; `insOk`
tells whether the `n`-th `cur.execute` call succeeds. -/
def seedCareerLoop (salary : Nat → Nat) (insOk : Nat → Bool) (orig : List CareerRow) :
    Nat → List CareerRow → List String → SeedResult CareerEvent (List CareerRow)
  | _, pending, [] =>
    ⟨[.commit, .closeCur, .closeConn, .printMsg "✅ Careers seeded"], pending, true⟩
  | n, pending, c :: rest =>
    if insOk n then
      let r := seedCareerLoop salary insOk orig (n + 1)
        (insertOnConflict CareerRow.title pending
          ⟨c, "A career as " ++ c, salary n, lifestyleJson⟩) rest
      ⟨.insert c ("A career as " ++ c) (salary n) lifestyleJson :: r.events, r.state, r.ok⟩
    else ⟨[], orig, false⟩

/-- `seed_careers`, run against the committed table `table`. -/
def seed_careers (salary : Nat → Nat) (insOk : Nat → Bool) (table : List CareerRow) :
    SeedResult CareerEvent (List CareerRow) :=
  seedCareerLoop salary insOk table 0 table careers

/-- Commit events of the careers trace. -/
def careerIsCommit : CareerEvent → Bool
  | .commit => true
  | _ => false

/-- Insert events of the careers trace. -/
def careerIsInsert : CareerEvent → Bool
  | .insert _ _ _ _ => true
  | _ => false

/-! ## Profile seeder (`etl/seed_profiles.py`) -/

/-- A row of the `users` table. -/
structure UserRow where
  id : Nat
  name : String
  email : String
deriving DecidableEq, Repr

/-- A row of the `user_profiles` table. -/
structure UserProfileRow where
  user_id : Nat
  headline : String
  profile_text : String
deriving DecidableEq, Repr

/-- The two tables touched by `seed_users`, together with the store's
counter for `users.id` (assigned by the store and surfaced through
`RETURNING id`). -/
structure UsersDB where
  users : List UserRow
  user_profiles : List UserProfileRow
  next_id : Nat
deriving DecidableEq, Repr

/-- Observable events of a `seed_users` run.  `insertUser` carries the
id returned by `RETURNING id` next to the execute parameters. -/
inductive UserEvent where
  | insertUser (name email : String) (returnedId : Nat)
  | insertProfile (user_id : Nat) (headline profile_text : String)
  | commit
  | closeCur
  | closeConn
  | printMsg (s : String)
deriving DecidableEq, Repr

/-- Faker oracles: `fake.name()`, `fake.email()`, `fake.job()` indexed
by loop iteration, and `fake.text(max_nb_chars=n)` indexed by iteration
and cap. -/
structure FakerOracle where
  name : Nat → String
  email : Nat → String
  job : Nat → String
  text : Nat → Nat → String

/-- The `for _ in range(20):` loop of `seed_users` (`rem` iterations
remaining, `i` the current iteration), followed by `conn.commit();
cur.close(); conn.close(); print(...)`.  Each iteration issues two
execute calls (user insert, then profile insert), numbered `2*i` and
`2*i+1` for the failure oracle; an uncaught failure aborts the run and
the committed state stays `orig`. -/
def seedUsersLoop (g : FakerOracle) (insOk : Nat → Bool) (orig : UsersDB) :
    Nat → Nat → UsersDB → SeedResult UserEvent UsersDB
  | _, 0, db =>
    ⟨[.commit, .closeCur, .closeConn, .printMsg "✅ Users seeded"], db, true⟩
  | i, rem + 1, db =>
    if insOk (2 * i) then
      let uid := db.next_id
      let db1 : UsersDB :=
        ⟨db.users ++ [⟨uid, g.name i, g.email i⟩], db.user_profiles, db.next_id + 1⟩
      if insOk (2 * i + 1) then
        let db2 : UsersDB :=
          ⟨db1.users, db1.user_profiles ++ [⟨uid, g.job i, g.text i 500⟩], db1.next_id⟩
        let r := seedUsersLoop g insOk orig (i + 1) rem db2
        ⟨.insertUser (g.name i) (g.email i) uid ::
           .insertProfile uid (g.job i) (g.text i 500) :: r.events, r.state, r.ok⟩
      else ⟨[.insertUser (g.name i) (g.email i) uid], orig, false⟩
    else ⟨[], orig, false⟩

/-- `seed_users`, run against the committed state `db`: 20 iterations. -/
def seed_users (g : FakerOracle) (insOk : Nat → Bool) (db : UsersDB) :
    SeedResult UserEvent UsersDB :=
  seedUsersLoop g insOk db 0 20 db

/-- Commit events of the users trace. -/
def userIsCommit : UserEvent → Bool
  | .commit => true
  | _ => false

/-- Insert events (either table) of the users trace. -/
def userIsInsert : UserEvent → Bool
  | .insertUser _ _ _ => true
  | .insertProfile _ _ _ => true
  | _ => false

/-- User-insert events of the users trace. -/
def isUserInsert : UserEvent → Bool
  | .insertUser _ _ _ => true
  | _ => false

/-- Profile-insert events of the users trace. -/
def isProfileInsert : UserEvent → Bool
  | .insertProfile _ _ _ => true
  | _ => false

/-- Every `insertProfile` event references the returned id of an
`insertUser` event strictly earlier in the trace (`seen` holds the ids
returned so far). -/
def profileRefsOkFrom (seen : List Nat) : List UserEvent → Bool
  | [] => true
  | .insertUser _ _ id :: rest => profileRefsOkFrom (id :: seen) rest
  | .insertProfile uid _ _ :: rest => seen.contains uid && profileRefsOkFrom seen rest
  | _ :: rest => profileRefsOkFrom seen rest

/-- Every `insertProfile` event of the trace references a user id
returned earlier in the same trace. -/
def profileRefsOk (l : List UserEvent) : Bool :=
  profileRefsOkFrom [] l

/-- Every `insertProfile` event of the trace carries a profile text of
at most `limit` characters. -/
def profileTextsWithin (limit : Nat) : List UserEvent → Bool
  | [] => true
  | .insertProfile _ _ t :: rest =>
    decide (t.length ≤ limit) && profileTextsWithin limit rest
  | _ :: rest => profileTextsWithin limit rest

/-- A concrete faker oracle for witnesses. -/
def trivialFaker : FakerOracle :=
  ⟨fun _ => "n", fun _ => "e", fun _ => "j", fun _ _ => ""⟩

/-- On a run of the loop that ends without error, the upsert keys are
exactly the stringified row identifiers and the embedding-call inputs
are exactly the profile texts, in row order. -/
theorem syncLoop_success_spec {ε α : Type} (embed : Nat → String → Except ε α) :
    ∀ (n : Nat) (profiles : List ProfileRow) (tr : List (SyncEvent α)),
      syncLoop embed n profiles = (tr, none) →
      upsertKeys tr = profiles.map (fun p => toString p.uid) ∧
      embedInputs tr = profiles.map ProfileRow.text := by
  intro n profiles
  induction profiles generalizing n with
  | nil =>
    intro tr h
    simp [syncLoop] at h
    subst h
    exact ⟨rfl, rfl⟩
  | cons p rest ih =>
    intro tr h
    simp only [syncLoop] at h
    cases hemb : embed n p.text with
    | error e => rw [hemb] at h; simp at h
    | ok v =>
      rw [hemb] at h
      cases hrec : syncLoop embed (n + 1) rest with
      | mk tr' err' =>
        rw [hrec] at h
        simp at h
        obtain ⟨htr, herr⟩ := h
        subst herr
        obtain ⟨h1, h2⟩ := ih (n + 1) tr' hrec
        subst htr
        simp [upsertKeys, embedInputs] at h1 h2 ⊢
        exact ⟨h1, h2⟩

/-- A run of `seed_embeddings` ending without error is a successful loop
followed by the print/close events. -/
theorem seed_embeddings_success_split {ε α : Type} (embed : Nat → String → Except ε α)
    (profiles : List ProfileRow) (tr : List (SyncEvent α))
    (h : seed_embeddings embed profiles = (tr, none)) :
    ∃ tr0, syncLoop embed 0 profiles = (tr0, none) ∧
      tr = tr0 ++ [.printMsg "✅ Embeddings synced", .closeCur, .closeConn] := by
  unfold seed_embeddings at h
  cases hrec : syncLoop embed 0 profiles with
  | mk tr0 err =>
    rw [hrec] at h
    cases err with
    | some e => simp at h
    | none =>
      simp at h
      exact ⟨tr0, rfl, h.symm⟩

/-- Appending events splits `upsertKeys`. -/
theorem upsertKeys_append {α : Type} (a b : List (SyncEvent α)) :
    upsertKeys (a ++ b) = upsertKeys a ++ upsertKeys b :=
  List.filterMap_append a b _

/-- Appending events splits `embedInputs`. -/
theorem embedInputs_append {α : Type} (a b : List (SyncEvent α)) :
    embedInputs (a ++ b) = embedInputs a ++ embedInputs b :=
  List.filterMap_append a b _

/-- Step equation of the sync loop when the embedding call fails. -/
theorem syncLoop_cons_error {ε α : Type} (embed : Nat → String → Except ε α)
    (n : Nat) (p : ProfileRow) (rest : List ProfileRow) (e : ε)
    (h : embed n p.text = Except.error e) :
    syncLoop embed n (p :: rest) =
      (([.embedCall p.text "text-embedding-ada-002"] : List (SyncEvent α)), some e) := by
  simp only [syncLoop]
  rw [h]

/-- Step equation of the sync loop when the embedding call succeeds. -/
theorem syncLoop_cons_ok {ε α : Type} (embed : Nat → String → Except ε α)
    (n : Nat) (p : ProfileRow) (rest : List ProfileRow) (v : α)
    (h : embed n p.text = Except.ok v) :
    syncLoop embed n (p :: rest) =
      (.embedCall p.text "text-embedding-ada-002" ::
         .upsert (toString p.uid) v :: (syncLoop embed (n + 1) rest).1,
       (syncLoop embed (n + 1) rest).2) := by
  simp only [syncLoop]
  rw [h]

/-- On every run of the loop — error-free or aborted mid-way — the
upsert keys are exactly the stringified identifiers of the rows
processed so far: the keys list is the map of `toString ∘ uid` over the
first `k` rows, where `k` is the number of upserts issued. -/
theorem syncLoop_keys_processed {ε α : Type} (embed : Nat → String → Except ε α) :
    ∀ (profiles : List ProfileRow) (n : Nat),
      upsertKeys (syncLoop embed n profiles).1 =
        (profiles.take (upsertKeys (syncLoop embed n profiles).1).length).map
          (fun p => toString p.uid) := by
  intro profiles
  induction profiles with
  | nil => intro n; rfl
  | cons p rest ih =>
    intro n
    cases hemb : embed n p.text with
    | error e =>
      rw [syncLoop_cons_error embed n p rest e hemb]
      rfl
    | ok v =>
      rw [syncLoop_cons_ok embed n p rest v hemb]
      simp only [upsertKeys, List.filterMap_cons]
      simp only [List.length_cons, List.take_succ_cons, List.map_cons]
      exact congrArg (List.cons (toString p.uid)) (ih (n + 1))

/-- C1: on every run of the embedding sync — whether it completes or is
aborted by a failing embedding call — each upsert issued to the vector
index is keyed by the stringified identifier of the profile row being
processed: the list of upsert keys, in order, equals the stringified
identifiers of the first rows of the fetched list, one per upsert
issued. -/
theorem upsert_keys_eq_stringified_ids {ε α : Type} (embed : Nat → String → Except ε α)
    (profiles : List ProfileRow) :
    upsertKeys (seed_embeddings embed profiles).1 =
      (profiles.take (upsertKeys (seed_embeddings embed profiles).1).length).map
        (fun p => toString p.uid) := by
  have hkeys := syncLoop_keys_processed embed profiles 0
  unfold seed_embeddings
  cases hrec : syncLoop embed 0 profiles with
  | mk tr0 err =>
    rw [hrec] at hkeys
    cases err with
    | some e => simpa using hkeys
    | none =>
      dsimp only
      rw [upsertKeys_append]
      have hclose : upsertKeys
          ([.printMsg "✅ Embeddings synced", .closeCur, .closeConn] : List (SyncEvent α)) = [] := rfl
      rw [hclose, List.append_nil]
      exact hkeys

/-- C2: on every run of the embedding sync that completes without error,
the number of embedding-service calls and the number of upsert calls
each equal the number of profile rows fetched by the query. -/
theorem sync_call_counts_eq_rows {ε α : Type} (embed : Nat → String → Except ε α)
    (profiles : List ProfileRow) (tr : List (SyncEvent α))
    (h : seed_embeddings embed profiles = (tr, none)) :
    (embedInputs tr).length = profiles.length ∧
    (upsertKeys tr).length = profiles.length := by
  obtain ⟨tr0, hloop, htr⟩ := seed_embeddings_success_split embed profiles tr h
  obtain ⟨h1, h2⟩ := syncLoop_success_spec embed 0 profiles tr0 hloop
  subst htr
  rw [upsertKeys_append, embedInputs_append, h1, h2]
  simp [upsertKeys, embedInputs]

/-- Witness for C2 at the spec scenario: three stored profiles issue
exactly three embedding calls and exactly three upserts. -/
theorem sync_call_counts_eq_rows_witness :
    (embedInputs (seed_embeddings (fun _ _ => (Except.ok 0 : Except Unit Nat))
        [⟨1, "a"⟩, ⟨2, "b"⟩, ⟨3, "c"⟩]).1).length = 3 ∧
    (upsertKeys (seed_embeddings (fun _ _ => (Except.ok 0 : Except Unit Nat))
        [⟨1, "a"⟩, ⟨2, "b"⟩, ⟨3, "c"⟩]).1).length = 3 :=
  sync_call_counts_eq_rows (fun _ _ => (Except.ok 0 : Except Unit Nat))
    [⟨1, "a"⟩, ⟨2, "b"⟩, ⟨3, "c"⟩] _ rfl

/-- C9: on an empty `user_profiles` table the sync issues zero
embedding calls and zero upserts, still prints the success message and
closes the cursor and the connection, and raises no error. -/
theorem empty_table_vacuous_success {ε α : Type} (embed : Nat → String → Except ε α) :
    seed_embeddings embed [] =
      ([.printMsg "✅ Embeddings synced", .closeCur, .closeConn], (none : Option ε)) ∧
    upsertKeys (seed_embeddings embed []).1 = [] ∧
    embedInputs (seed_embeddings embed []).1 = [] :=
  ⟨rfl, rfl, rfl⟩

/-- If the loop succeeds on the first `done.length` calls and the next
call fails, the loop emits upserts exactly for the rows in `done`, one
embedding call per row of `done` plus one for the failing row, no print
event, and returns the uncaught error. -/
theorem syncLoop_failure_spec {ε α : Type} (embed : Nat → String → Except ε α) (e : ε) :
    ∀ (n : Nat) (done : List ProfileRow) (bad : ProfileRow) (rest : List ProfileRow)
      (tr : List (SyncEvent α)) (err : Option ε),
      (∀ i (hi : i < done.length), ∃ v, embed (n + i) (done.get ⟨i, hi⟩).text = Except.ok v) →
      embed (n + done.length) bad.text = Except.error e →
      syncLoop embed n (done ++ bad :: rest) = (tr, err) →
      err = some e ∧
      upsertKeys tr = done.map (fun p => toString p.uid) ∧
      embedInputs tr = done.map ProfileRow.text ++ [bad.text] ∧
      hasPrint tr = false := by
  intro n done
  induction done generalizing n with
  | nil =>
    intro bad rest tr err _ h2 h
    rw [List.length_nil, Nat.add_zero] at h2
    simp only [List.nil_append, syncLoop] at h
    rw [h2] at h
    simp at h
    obtain ⟨htr, herr⟩ := h
    subst htr; subst herr
    exact ⟨rfl, rfl, rfl, rfl⟩
  | cons p done' ih =>
    intro bad rest tr err h1 h2 h
    obtain ⟨v, hv0⟩ := h1 0 (by simp)
    rw [Nat.add_zero] at hv0
    have hv : embed n p.text = Except.ok v := hv0
    have h1' : ∀ i (hi : i < done'.length),
        ∃ w, embed (n + 1 + i) (done'.get ⟨i, hi⟩).text = Except.ok w := by
      intro i hi
      have hi' : i + 1 < (p :: done').length := by simpa using Nat.succ_lt_succ hi
      obtain ⟨w, hw⟩ := h1 (i + 1) hi'
      refine ⟨w, ?_⟩
      have harith : n + (i + 1) = n + 1 + i := by omega
      rw [harith] at hw
      exact hw
    have h2' : embed (n + 1 + done'.length) bad.text = Except.error e := by
      have harith : n + (p :: done').length = n + 1 + done'.length := by
        simp [List.length_cons]; omega
      rw [harith] at h2
      exact h2
    simp only [List.cons_append, syncLoop, List.append_eq] at h
    rw [hv] at h
    cases hrec : syncLoop embed (n + 1) (done' ++ bad :: rest) with
    | mk tr' err' =>
      rw [hrec] at h
      simp at h
      obtain ⟨htr, herr⟩ := h
      subst htr; subst herr
      obtain ⟨ha, hb, hc, hd⟩ := ih (n + 1) bad rest tr' err' h1' h2' hrec
      refine ⟨ha, ?_, ?_, ?_⟩
      · simpa [upsertKeys] using hb
      · simpa [embedInputs] using hc
      · simpa [hasPrint] using hd

/-- C5: if the embedding-service call fails on some profile row, the
error propagates unhandled out of `seed_embeddings`, every row strictly
before the failing one has been embedded and upserted, no row at or
after the failing one is upserted, each processed row was requested
exactly once (no retry), and the success message is never printed. -/
theorem embed_failure_aborts_loop {ε α : Type} (embed : Nat → String → Except ε α) (e : ε)
    (done : List ProfileRow) (bad : ProfileRow) (rest : List ProfileRow)
    (h1 : ∀ i (hi : i < done.length), ∃ v, embed i (done.get ⟨i, hi⟩).text = Except.ok v)
    (h2 : embed done.length bad.text = Except.error e) :
    (seed_embeddings embed (done ++ bad :: rest)).2 = some e ∧
    upsertKeys (seed_embeddings embed (done ++ bad :: rest)).1 =
      done.map (fun p => toString p.uid) ∧
    embedInputs (seed_embeddings embed (done ++ bad :: rest)).1 =
      done.map ProfileRow.text ++ [bad.text] ∧
    hasPrint (seed_embeddings embed (done ++ bad :: rest)).1 = false := by
  have h1' : ∀ i (hi : i < done.length),
      ∃ v, embed (0 + i) (done.get ⟨i, hi⟩).text = Except.ok v := by
    intro i hi
    rw [Nat.zero_add]
    exact h1 i hi
  have h2' : embed (0 + done.length) bad.text = Except.error e := by
    rw [Nat.zero_add]; exact h2
  unfold seed_embeddings
  cases hrec : syncLoop embed 0 (done ++ bad :: rest) with
  | mk tr0 err =>
    obtain ⟨ha, hb, hc, hd⟩ :=
      syncLoop_failure_spec embed e 0 done bad rest tr0 err h1' h2' hrec
    subst ha
    exact ⟨rfl, hb, hc, hd⟩

/-- Witness for C5: with three rows where the second embedding call
fails, exactly the first row is upserted, two embedding calls were
issued, nothing is printed, and the error propagates. -/
theorem embed_failure_aborts_loop_witness :
    (seed_embeddings failingEmbed ([⟨1, "a"⟩] ++ ⟨2, "b"⟩ :: [⟨3, "c"⟩])).2 = some () ∧
    upsertKeys (seed_embeddings failingEmbed ([⟨1, "a"⟩] ++ ⟨2, "b"⟩ :: [⟨3, "c"⟩])).1 =
      ([⟨1, "a"⟩] : List ProfileRow).map (fun p => toString p.uid) ∧
    embedInputs (seed_embeddings failingEmbed ([⟨1, "a"⟩] ++ ⟨2, "b"⟩ :: [⟨3, "c"⟩])).1 =
      ([⟨1, "a"⟩] : List ProfileRow).map ProfileRow.text ++ ["b"] ∧
    hasPrint (seed_embeddings failingEmbed ([⟨1, "a"⟩] ++ ⟨2, "b"⟩ :: [⟨3, "c"⟩])).1 = false :=
  embed_failure_aborts_loop failingEmbed () [⟨1, "a"⟩] ⟨2, "b"⟩ [⟨3, "c"⟩]
    (fun i hi => by
      have hz : i = 0 := Nat.lt_one_iff.mp (by simpa using hi)
      subst hz
      exact ⟨0, rfl⟩)
    rfl

/-- C7: if the named index is already in the vector store's index list,
no create-index call is issued; if it is absent, exactly one
create-index call is issued, for that name with dimension 1536. -/
theorem index_ensure_create_iff_absent (existing : List String) :
    createCalls (ensureIndex existing) =
      (if index_name ∈ existing then []
       else [PineconeEvent.createIndex index_name 1536]) := by
  by_cases h : index_name ∈ existing <;> simp [ensureIndex, createCalls, h]

/-- After a conflict-tolerant insert of `r`, the table holds a row
titled `title r`. -/
theorem hasTitle_insertOnConflict_self {ρ : Type} (title : ρ → String)
    (t : List ρ) (r : ρ) :
    hasTitle title (insertOnConflict title t r) (title r) = true := by
  by_cases h : hasTitle title t (title r) = true
  · rw [insertOnConflict, if_pos h]; exact h
  · rw [insertOnConflict, if_neg h]
    simp [hasTitle, List.any_append]

/-- A conflict-tolerant insert never removes a title from the table. -/
theorem hasTitle_insertOnConflict_mono {ρ : Type} (title : ρ → String)
    (t : List ρ) (r : ρ) (s : String) (h : hasTitle title t s = true) :
    hasTitle title (insertOnConflict title t r) s = true := by
  by_cases hc : hasTitle title t (title r) = true
  · rw [insertOnConflict, if_pos hc]; exact h
  · rw [insertOnConflict, if_neg hc]
    rw [hasTitle] at h ⊢
    rw [List.any_append, h, Bool.true_or]

/-- A conflict-tolerant insert of a row whose title is already present
is a no-op. -/
theorem insertOnConflict_skip {ρ : Type} (title : ρ → String)
    (t : List ρ) (r : ρ) (h : hasTitle title t (title r) = true) :
    insertOnConflict title t r = t := by
  simp [insertOnConflict, h]

/-- The achievements loop never removes a title from the table. -/
theorem seedAchLoop_state_mono :
    ∀ (rows : List (String × String × Nat)) (n : Nat)
      (orig pending : List AchRow) (s : String),
      hasTitle AchRow.title pending s = true →
      hasTitle AchRow.title (seedAchLoop allOk orig n pending rows).state s = true := by
  intro rows
  induction rows with
  | nil => intro n orig pending s h; simpa [seedAchLoop] using h
  | cons row rest ih =>
    intro n orig pending s h
    obtain ⟨t, d, p⟩ := row
    simp only [seedAchLoop, allOk, if_true]
    exact ih (n + 1) orig _ s (hasTitle_insertOnConflict_mono _ _ _ _ h)

/-- After a successful achievements loop, every processed title is in
the table. -/
theorem seedAchLoop_state_inserted :
    ∀ (rows : List (String × String × Nat)) (n : Nat)
      (orig pending : List AchRow),
      ∀ row ∈ rows,
        hasTitle AchRow.title (seedAchLoop allOk orig n pending rows).state row.1 = true := by
  intro rows
  induction rows with
  | nil => intro n orig pending row hrow; simp at hrow
  | cons hd rest ih =>
    intro n orig pending row hrow
    obtain ⟨t, d, p⟩ := hd
    simp only [seedAchLoop, allOk, if_true]
    rcases List.mem_cons.mp hrow with heq | hmem
    · subst heq
      exact seedAchLoop_state_mono rest (n + 1) orig _ _
        (hasTitle_insertOnConflict_self AchRow.title pending ⟨t, d, p⟩)
    · exact ih (n + 1) orig _ row hmem

/-- If every title of `rows` is already in the table, the achievements
loop leaves the table unchanged. -/
theorem seedAchLoop_state_skip :
    ∀ (rows : List (String × String × Nat)) (n : Nat)
      (orig pending : List AchRow),
      (∀ row ∈ rows, hasTitle AchRow.title pending row.1 = true) →
      (seedAchLoop allOk orig n pending rows).state = pending := by
  intro rows
  induction rows with
  | nil => intro n orig pending _; simp [seedAchLoop]
  | cons hd rest ih =>
    intro n orig pending h
    obtain ⟨t, d, p⟩ := hd
    simp only [seedAchLoop, allOk, if_true]
    have hskip : insertOnConflict AchRow.title pending ⟨t, d, p⟩ = pending :=
      insertOnConflict_skip AchRow.title pending ⟨t, d, p⟩ (h (t, d, p) (by simp))
    rw [hskip]
    exact ih (n + 1) orig pending (fun row hrow => h row (List.mem_cons_of_mem _ hrow))

/-- The careers loop never removes a title from the table. -/
theorem seedCareerLoop_state_mono (sal : Nat → Nat) :
    ∀ (cs : List String) (n : Nat) (orig pending : List CareerRow) (s : String),
      hasTitle CareerRow.title pending s = true →
      hasTitle CareerRow.title (seedCareerLoop sal allOk orig n pending cs).state s = true := by
  intro cs
  induction cs with
  | nil => intro n orig pending s h; simpa [seedCareerLoop] using h
  | cons c rest ih =>
    intro n orig pending s h
    simp only [seedCareerLoop, allOk, if_true]
    exact ih (n + 1) orig _ s (hasTitle_insertOnConflict_mono _ _ _ _ h)

/-- After a successful careers loop, every processed title is in the
table. -/
theorem seedCareerLoop_state_inserted (sal : Nat → Nat) :
    ∀ (cs : List String) (n : Nat) (orig pending : List CareerRow),
      ∀ c ∈ cs,
        hasTitle CareerRow.title (seedCareerLoop sal allOk orig n pending cs).state c = true := by
  intro cs
  induction cs with
  | nil => intro n orig pending c hc; simp at hc
  | cons hd rest ih =>
    intro n orig pending c hc
    simp only [seedCareerLoop, allOk, if_true]
    rcases List.mem_cons.mp hc with heq | hmem
    · subst heq
      exact seedCareerLoop_state_mono sal rest (n + 1) orig _ _
        (hasTitle_insertOnConflict_self CareerRow.title pending
          ⟨c, "A career as " ++ c, sal n, lifestyleJson⟩)
    · exact ih (n + 1) orig _ c hmem

/-- If every title of `cs` is already in the table, the careers loop
leaves the table unchanged. -/
theorem seedCareerLoop_state_skip (sal : Nat → Nat) :
    ∀ (cs : List String) (n : Nat) (orig pending : List CareerRow),
      (∀ c ∈ cs, hasTitle CareerRow.title pending c = true) →
      (seedCareerLoop sal allOk orig n pending cs).state = pending := by
  intro cs
  induction cs with
  | nil => intro n orig pending _; simp [seedCareerLoop]
  | cons c rest ih =>
    intro n orig pending h
    simp only [seedCareerLoop, allOk, if_true]
    have hskip : insertOnConflict CareerRow.title pending
        ⟨c, "A career as " ++ c, sal n, lifestyleJson⟩ = pending :=
      insertOnConflict_skip CareerRow.title pending _ (h c (by simp))
    rw [hskip]
    exact ih (n + 1) orig pending (fun c' hc' => h c' (List.mem_cons_of_mem _ hc'))

/-- C3: both reference-data seeders are idempotent on completed runs:
re-running leaves the row count of the seeded table unchanged (rows
whose title already exists are skipped by the conflict-tolerant
insert), the careers case holding for arbitrary fresh salary draws of
each run; seeding the two achievements twice from an empty table yields
exactly 2 rows, not 4. -/
theorem reference_seeders_idempotent :
    (∀ t : List AchRow,
      (seed_achievements allOk (seed_achievements allOk t).state).state.length =
        (seed_achievements allOk t).state.length) ∧
    (∀ (sal1 sal2 : Nat → Nat) (t : List CareerRow),
      (seed_careers sal2 allOk (seed_careers sal1 allOk t).state).state.length =
        (seed_careers sal1 allOk t).state.length) ∧
    (seed_achievements allOk (seed_achievements allOk ([] : List AchRow)).state).state.length = 2 := by
  refine ⟨?_, ?_, ?_⟩
  · intro t
    have hall : ∀ row ∈ achievements,
        hasTitle AchRow.title (seed_achievements allOk t).state row.1 = true :=
      fun row hrow => seedAchLoop_state_inserted achievements 0 t t row hrow
    have hsame : (seed_achievements allOk (seed_achievements allOk t).state).state =
        (seed_achievements allOk t).state :=
      seedAchLoop_state_skip achievements 0 _ _ hall
    rw [hsame]
  · intro sal1 sal2 t
    have hall : ∀ c ∈ careers,
        hasTitle CareerRow.title (seed_careers sal1 allOk t).state c = true :=
      fun c hc => seedCareerLoop_state_inserted sal1 careers 0 t t c hc
    have hsame : (seed_careers sal2 allOk (seed_careers sal1 allOk t).state).state =
        (seed_careers sal1 allOk t).state :=
      seedCareerLoop_state_skip sal2 careers 0 _ _ hall
    rw [hsame]
  · rfl

/-- Prepending a non-commit event preserves the
single-commit-after-inserts shape. -/
theorem singleCommitAfterInserts_cons {ev : Type} (isC isI : ev → Bool)
    (e : ev) (l : List ev) (h : isC e = false) :
    singleCommitAfterInserts isC isI (e :: l) = singleCommitAfterInserts isC isI l := by
  simp [singleCommitAfterInserts, countEvents, List.filter_cons, List.dropWhile_cons, h]

/-- Step equation of the achievements loop when the execute call
succeeds. -/
theorem seedAchLoop_cons_ok (insOk : Nat → Bool) (orig : List AchRow) (n : Nat)
    (pending : List AchRow) (t d : String) (p : Nat)
    (rest : List (String × String × Nat)) (h : insOk n = true) :
    seedAchLoop insOk orig n pending ((t, d, p) :: rest) =
      ⟨.insert t d p ::
         (seedAchLoop insOk orig (n + 1) (insertOnConflict AchRow.title pending ⟨t, d, p⟩) rest).events,
       (seedAchLoop insOk orig (n + 1) (insertOnConflict AchRow.title pending ⟨t, d, p⟩) rest).state,
       (seedAchLoop insOk orig (n + 1) (insertOnConflict AchRow.title pending ⟨t, d, p⟩) rest).ok⟩ := by
  simp only [seedAchLoop]
  rw [if_pos h]

/-- Step equation of the achievements loop when the execute call
fails. -/
theorem seedAchLoop_cons_fail (insOk : Nat → Bool) (orig : List AchRow) (n : Nat)
    (pending : List AchRow) (t d : String) (p : Nat)
    (rest : List (String × String × Nat)) (h : insOk n = false) :
    seedAchLoop insOk orig n pending ((t, d, p) :: rest) = ⟨[], orig, false⟩ := by
  simp only [seedAchLoop]
  rw [if_neg (by simp [h])]

/-- A completed achievements run commits exactly once, after all its
inserts. -/
theorem seedAchLoop_ok_commit (insOk : Nat → Bool) (orig : List AchRow) :
    ∀ (rows : List (String × String × Nat)) (n : Nat) (pending : List AchRow),
      (seedAchLoop insOk orig n pending rows).ok = true →
      singleCommitAfterInserts achIsCommit achIsInsert
        (seedAchLoop insOk orig n pending rows).events = true := by
  intro rows
  induction rows with
  | nil => intro n pending _; rfl
  | cons hd rest ih =>
    intro n pending hok
    obtain ⟨t, d, p⟩ := hd
    by_cases h : insOk n = true
    · rw [seedAchLoop_cons_ok insOk orig n pending t d p rest h] at hok ⊢
      rw [singleCommitAfterInserts_cons _ _ _ _ rfl]
      exact ih (n + 1) _ hok
    · rw [seedAchLoop_cons_fail insOk orig n pending t d p rest (Bool.eq_false_iff.mpr h)] at hok
      simp at hok

/-- An aborted achievements run commits nothing and leaves the
committed table unchanged. -/
theorem seedAchLoop_fail_state (insOk : Nat → Bool) (orig : List AchRow) :
    ∀ (rows : List (String × String × Nat)) (n : Nat) (pending : List AchRow),
      (seedAchLoop insOk orig n pending rows).ok = false →
      countEvents achIsCommit (seedAchLoop insOk orig n pending rows).events = 0 ∧
      (seedAchLoop insOk orig n pending rows).state = orig := by
  intro rows
  induction rows with
  | nil => intro n pending hok; simp [seedAchLoop] at hok
  | cons hd rest ih =>
    intro n pending hok
    obtain ⟨t, d, p⟩ := hd
    by_cases h : insOk n = true
    · rw [seedAchLoop_cons_ok insOk orig n pending t d p rest h] at hok ⊢
      obtain ⟨hc, hs⟩ := ih (n + 1) _ hok
      refine ⟨?_, hs⟩
      simpa [countEvents, List.filter_cons, achIsCommit] using hc
    · rw [seedAchLoop_cons_fail insOk orig n pending t d p rest (Bool.eq_false_iff.mpr h)]
      exact ⟨rfl, rfl⟩

/-- Step equation of the careers loop when the execute call succeeds. -/
theorem seedCareerLoop_cons_ok (sal : Nat → Nat) (insOk : Nat → Bool)
    (orig : List CareerRow) (n : Nat) (pending : List CareerRow) (c : String)
    (rest : List String) (h : insOk n = true) :
    seedCareerLoop sal insOk orig n pending (c :: rest) =
      ⟨.insert c ("A career as " ++ c) (sal n) lifestyleJson ::
         (seedCareerLoop sal insOk orig (n + 1)
           (insertOnConflict CareerRow.title pending
             ⟨c, "A career as " ++ c, sal n, lifestyleJson⟩) rest).events,
       (seedCareerLoop sal insOk orig (n + 1)
         (insertOnConflict CareerRow.title pending
           ⟨c, "A career as " ++ c, sal n, lifestyleJson⟩) rest).state,
       (seedCareerLoop sal insOk orig (n + 1)
         (insertOnConflict CareerRow.title pending
           ⟨c, "A career as " ++ c, sal n, lifestyleJson⟩) rest).ok⟩ := by
  simp only [seedCareerLoop]
  rw [if_pos h]

/-- Step equation of the careers loop when the execute call fails. -/
theorem seedCareerLoop_cons_fail (sal : Nat → Nat) (insOk : Nat → Bool)
    (orig : List CareerRow) (n : Nat) (pending : List CareerRow) (c : String)
    (rest : List String) (h : insOk n = false) :
    seedCareerLoop sal insOk orig n pending (c :: rest) = ⟨[], orig, false⟩ := by
  simp only [seedCareerLoop]
  rw [if_neg (by simp [h])]

/-- A completed careers run commits exactly once, after all its
inserts. -/
theorem seedCareerLoop_ok_commit (sal : Nat → Nat) (insOk : Nat → Bool)
    (orig : List CareerRow) :
    ∀ (cs : List String) (n : Nat) (pending : List CareerRow),
      (seedCareerLoop sal insOk orig n pending cs).ok = true →
      singleCommitAfterInserts careerIsCommit careerIsInsert
        (seedCareerLoop sal insOk orig n pending cs).events = true := by
  intro cs
  induction cs with
  | nil => intro n pending _; rfl
  | cons c rest ih =>
    intro n pending hok
    by_cases h : insOk n = true
    · rw [seedCareerLoop_cons_ok sal insOk orig n pending c rest h] at hok ⊢
      rw [singleCommitAfterInserts_cons _ _ _ _ rfl]
      exact ih (n + 1) _ hok
    · rw [seedCareerLoop_cons_fail sal insOk orig n pending c rest (Bool.eq_false_iff.mpr h)] at hok
      simp at hok

/-- An aborted careers run commits nothing and leaves the committed
table unchanged. -/
theorem seedCareerLoop_fail_state (sal : Nat → Nat) (insOk : Nat → Bool)
    (orig : List CareerRow) :
    ∀ (cs : List String) (n : Nat) (pending : List CareerRow),
      (seedCareerLoop sal insOk orig n pending cs).ok = false →
      countEvents careerIsCommit (seedCareerLoop sal insOk orig n pending cs).events = 0 ∧
      (seedCareerLoop sal insOk orig n pending cs).state = orig := by
  intro cs
  induction cs with
  | nil => intro n pending hok; simp [seedCareerLoop] at hok
  | cons c rest ih =>
    intro n pending hok
    by_cases h : insOk n = true
    · rw [seedCareerLoop_cons_ok sal insOk orig n pending c rest h] at hok ⊢
      obtain ⟨hc, hs⟩ := ih (n + 1) _ hok
      refine ⟨?_, hs⟩
      simpa [countEvents, List.filter_cons, careerIsCommit] using hc
    · rw [seedCareerLoop_cons_fail sal insOk orig n pending c rest (Bool.eq_false_iff.mpr h)]
      exact ⟨rfl, rfl⟩

/-- Step equation of the users loop when both execute calls of the
iteration succeed. -/
theorem seedUsersLoop_step_okok (g : FakerOracle) (insOk : Nat → Bool)
    (orig : UsersDB) (i rem : Nat) (db : UsersDB)
    (h1 : insOk (2 * i) = true) (h2 : insOk (2 * i + 1) = true) :
    seedUsersLoop g insOk orig i (rem + 1) db =
      ⟨.insertUser (g.name i) (g.email i) db.next_id ::
         .insertProfile db.next_id (g.job i) (g.text i 500) ::
         (seedUsersLoop g insOk orig (i + 1) rem
           ⟨db.users ++ [⟨db.next_id, g.name i, g.email i⟩],
            db.user_profiles ++ [⟨db.next_id, g.job i, g.text i 500⟩],
            db.next_id + 1⟩).events,
       (seedUsersLoop g insOk orig (i + 1) rem
         ⟨db.users ++ [⟨db.next_id, g.name i, g.email i⟩],
          db.user_profiles ++ [⟨db.next_id, g.job i, g.text i 500⟩],
          db.next_id + 1⟩).state,
       (seedUsersLoop g insOk orig (i + 1) rem
         ⟨db.users ++ [⟨db.next_id, g.name i, g.email i⟩],
          db.user_profiles ++ [⟨db.next_id, g.job i, g.text i 500⟩],
          db.next_id + 1⟩).ok⟩ := by
  simp only [seedUsersLoop]
  rw [if_pos h1, if_pos h2]

/-- Step equation of the users loop when the user insert fails. -/
theorem seedUsersLoop_step_fail1 (g : FakerOracle) (insOk : Nat → Bool)
    (orig : UsersDB) (i rem : Nat) (db : UsersDB)
    (h1 : insOk (2 * i) = false) :
    seedUsersLoop g insOk orig i (rem + 1) db = ⟨[], orig, false⟩ := by
  simp only [seedUsersLoop]
  rw [if_neg (by simp [h1])]

/-- Step equation of the users loop when the user insert succeeds but
the profile insert fails. -/
theorem seedUsersLoop_step_fail2 (g : FakerOracle) (insOk : Nat → Bool)
    (orig : UsersDB) (i rem : Nat) (db : UsersDB)
    (h1 : insOk (2 * i) = true) (h2 : insOk (2 * i + 1) = false) :
    seedUsersLoop g insOk orig i (rem + 1) db =
      ⟨[.insertUser (g.name i) (g.email i) db.next_id], orig, false⟩ := by
  simp only [seedUsersLoop]
  rw [if_pos h1, if_neg (by simp [h2])]

/-- A completed users run commits exactly once, after all its
inserts. -/
theorem seedUsersLoop_ok_commit (g : FakerOracle) (insOk : Nat → Bool) (orig : UsersDB) :
    ∀ (rem i : Nat) (db : UsersDB),
      (seedUsersLoop g insOk orig i rem db).ok = true →
      singleCommitAfterInserts userIsCommit userIsInsert
        (seedUsersLoop g insOk orig i rem db).events = true := by
  intro rem
  induction rem with
  | zero => intro i db _; rfl
  | succ rem ih =>
    intro i db hok
    by_cases h1 : insOk (2 * i) = true
    · by_cases h2 : insOk (2 * i + 1) = true
      · rw [seedUsersLoop_step_okok g insOk orig i rem db h1 h2] at hok ⊢
        rw [singleCommitAfterInserts_cons _ _ _ _ rfl,
          singleCommitAfterInserts_cons _ _ _ _ rfl]
        exact ih (i + 1) _ hok
      · rw [seedUsersLoop_step_fail2 g insOk orig i rem db h1 (Bool.eq_false_iff.mpr h2)] at hok
        simp at hok
    · rw [seedUsersLoop_step_fail1 g insOk orig i rem db (Bool.eq_false_iff.mpr h1)] at hok
      simp at hok

/-- An aborted users run commits nothing and leaves the committed
state unchanged. -/
theorem seedUsersLoop_fail_state (g : FakerOracle) (insOk : Nat → Bool) (orig : UsersDB) :
    ∀ (rem i : Nat) (db : UsersDB),
      (seedUsersLoop g insOk orig i rem db).ok = false →
      countEvents userIsCommit (seedUsersLoop g insOk orig i rem db).events = 0 ∧
      (seedUsersLoop g insOk orig i rem db).state = orig := by
  intro rem
  induction rem with
  | zero => intro i db hok; simp [seedUsersLoop] at hok
  | succ rem ih =>
    intro i db hok
    by_cases h1 : insOk (2 * i) = true
    · by_cases h2 : insOk (2 * i + 1) = true
      · rw [seedUsersLoop_step_okok g insOk orig i rem db h1 h2] at hok ⊢
        obtain ⟨hc, hs⟩ := ih (i + 1) _ hok
        refine ⟨?_, hs⟩
        simpa [countEvents, List.filter_cons, userIsCommit] using hc
      · rw [seedUsersLoop_step_fail2 g insOk orig i rem db h1 (Bool.eq_false_iff.mpr h2)]
        exact ⟨rfl, rfl⟩
    · rw [seedUsersLoop_step_fail1 g insOk orig i rem db (Bool.eq_false_iff.mpr h1)]
      exact ⟨rfl, rfl⟩

/-- C6: in each seeder (profiles, achievements, career paths) a
completed run issues exactly one commit, positioned after every insert
of the batch; a run aborted by an insert failure issues no commit and
leaves the committed state exactly as before the run. -/
theorem single_commit_after_batch :
    (∀ (insOk : Nat → Bool) (t : List AchRow),
      ((seed_achievements insOk t).ok = true →
        singleCommitAfterInserts achIsCommit achIsInsert
          (seed_achievements insOk t).events = true) ∧
      ((seed_achievements insOk t).ok = false →
        countEvents achIsCommit (seed_achievements insOk t).events = 0 ∧
        (seed_achievements insOk t).state = t)) ∧
    (∀ (sal : Nat → Nat) (insOk : Nat → Bool) (t : List CareerRow),
      ((seed_careers sal insOk t).ok = true →
        singleCommitAfterInserts careerIsCommit careerIsInsert
          (seed_careers sal insOk t).events = true) ∧
      ((seed_careers sal insOk t).ok = false →
        countEvents careerIsCommit (seed_careers sal insOk t).events = 0 ∧
        (seed_careers sal insOk t).state = t)) ∧
    (∀ (g : FakerOracle) (insOk : Nat → Bool) (db : UsersDB),
      ((seed_users g insOk db).ok = true →
        singleCommitAfterInserts userIsCommit userIsInsert
          (seed_users g insOk db).events = true) ∧
      ((seed_users g insOk db).ok = false →
        countEvents userIsCommit (seed_users g insOk db).events = 0 ∧
        (seed_users g insOk db).state = db)) := by
  refine ⟨?_, ?_, ?_⟩
  · intro insOk t
    exact ⟨seedAchLoop_ok_commit insOk t achievements 0 t,
      seedAchLoop_fail_state insOk t achievements 0 t⟩
  · intro sal insOk t
    exact ⟨seedCareerLoop_ok_commit sal insOk t careers 0 t,
      seedCareerLoop_fail_state sal insOk t careers 0 t⟩
  · intro g insOk db
    exact ⟨seedUsersLoop_ok_commit g insOk db 20 0 db,
      seedUsersLoop_fail_state g insOk db 20 0 db⟩

/-- Witness for C6: a completed achievements run from the empty table
commits once after its inserts; a careers run whose first insert fails
commits nothing; a completed users run commits once after its
inserts. -/
theorem single_commit_after_batch_witness :
    singleCommitAfterInserts achIsCommit achIsInsert
      (seed_achievements allOk []).events = true ∧
    countEvents careerIsCommit (seed_careers (fun _ => 70000) alwaysFail []).events = 0 ∧
    singleCommitAfterInserts userIsCommit userIsInsert
      (seed_users trivialFaker allOk ⟨[], [], 0⟩).events = true :=
  ⟨(single_commit_after_batch.1 allOk []).1 rfl,
   ((single_commit_after_batch.2.1 (fun _ => 70000) alwaysFail []).2 rfl).1,
   (single_commit_after_batch.2.2 trivialFaker allOk ⟨[], [], 0⟩).1 rfl⟩

/-- A completed users loop of `rem` iterations adds `rem` rows to each
table, issues `rem` user inserts and `rem` profile inserts, and every
profile insert references an id returned by an earlier user insert. -/
theorem seedUsersLoop_ok_spec (g : FakerOracle) (insOk : Nat → Bool) (orig : UsersDB) :
    ∀ (rem i : Nat) (db : UsersDB),
      (seedUsersLoop g insOk orig i rem db).ok = true →
      (seedUsersLoop g insOk orig i rem db).state.users.length = db.users.length + rem ∧
      (seedUsersLoop g insOk orig i rem db).state.user_profiles.length =
        db.user_profiles.length + rem ∧
      countEvents isUserInsert (seedUsersLoop g insOk orig i rem db).events = rem ∧
      countEvents isProfileInsert (seedUsersLoop g insOk orig i rem db).events = rem ∧
      ∀ seen, profileRefsOkFrom seen (seedUsersLoop g insOk orig i rem db).events = true := by
  intro rem
  induction rem with
  | zero =>
    intro i db _
    exact ⟨by simp [seedUsersLoop], by simp [seedUsersLoop], rfl, rfl, fun seen => rfl⟩
  | succ rem ih =>
    intro i db hok
    by_cases h1 : insOk (2 * i) = true
    · by_cases h2 : insOk (2 * i + 1) = true
      · rw [seedUsersLoop_step_okok g insOk orig i rem db h1 h2] at hok ⊢
        obtain ⟨ha, hb, hc, hd, he⟩ := ih (i + 1) _ hok
        refine ⟨?_, ?_, ?_, ?_, ?_⟩
        · dsimp only
          simp [List.length_append] at ha
          omega
        · dsimp only
          simp [List.length_append] at hb
          omega
        · dsimp only
          simp [countEvents, List.filter_cons, isUserInsert] at hc ⊢
          omega
        · dsimp only
          simp [countEvents, List.filter_cons, isProfileInsert] at hd ⊢
          omega
        · intro seen
          dsimp only
          simp only [profileRefsOkFrom]
          rw [he (db.next_id :: seen)]
          simp
      · rw [seedUsersLoop_step_fail2 g insOk orig i rem db h1 (Bool.eq_false_iff.mpr h2)] at hok
        simp at hok
    · rw [seedUsersLoop_step_fail1 g insOk orig i rem db (Bool.eq_false_iff.mpr h1)] at hok
      simp at hok

/-- C4: every completed profile-seeding run creates exactly 20 User
rows and exactly 20 UserProfile rows, issues 20 user-insert and 20
profile-insert statements, and every profile insert references the
store-assigned id returned by a user insert issued earlier in the same
run. -/
theorem profile_seeder_counts_and_refs (g : FakerOracle) (insOk : Nat → Bool)
    (db : UsersDB) (h : (seed_users g insOk db).ok = true) :
    (seed_users g insOk db).state.users.length = db.users.length + 20 ∧
    (seed_users g insOk db).state.user_profiles.length = db.user_profiles.length + 20 ∧
    countEvents isUserInsert (seed_users g insOk db).events = 20 ∧
    countEvents isProfileInsert (seed_users g insOk db).events = 20 ∧
    profileRefsOk (seed_users g insOk db).events = true := by
  obtain ⟨ha, hb, hc, hd, he⟩ := seedUsersLoop_ok_spec g insOk db 20 0 db h
  exact ⟨ha, hb, hc, hd, he []⟩

/-- Witness for C4: a completed run over an empty database yields 20
rows in each table, 20 inserts of each kind, and valid references. -/
theorem profile_seeder_counts_and_refs_witness :
    (seed_users trivialFaker allOk ⟨[], [], 0⟩).state.users.length = 20 ∧
    (seed_users trivialFaker allOk ⟨[], [], 0⟩).state.user_profiles.length = 20 ∧
    countEvents isUserInsert (seed_users trivialFaker allOk ⟨[], [], 0⟩).events = 20 ∧
    countEvents isProfileInsert (seed_users trivialFaker allOk ⟨[], [], 0⟩).events = 20 ∧
    profileRefsOk (seed_users trivialFaker allOk ⟨[], [], 0⟩).events = true :=
  profile_seeder_counts_and_refs trivialFaker allOk ⟨[], [], 0⟩ rfl

/-- If the text generator honours its cap, every profile text in a
users-loop trace is at most 500 characters. -/
theorem seedUsersLoop_texts_within (g : FakerOracle) (insOk : Nat → Bool)
    (orig : UsersDB) (hcap : ∀ i n, (g.text i n).length ≤ n) :
    ∀ (rem i : Nat) (db : UsersDB),
      profileTextsWithin 500 (seedUsersLoop g insOk orig i rem db).events = true := by
  intro rem
  induction rem with
  | zero => intro i db; rfl
  | succ rem ih =>
    intro i db
    by_cases h1 : insOk (2 * i) = true
    · by_cases h2 : insOk (2 * i + 1) = true
      · rw [seedUsersLoop_step_okok g insOk orig i rem db h1 h2]
        dsimp only
        simp only [profileTextsWithin]
        rw [ih (i + 1) _]
        simp [hcap i 500]
      · rw [seedUsersLoop_step_fail2 g insOk orig i rem db h1 (Bool.eq_false_iff.mpr h2)]
        rfl
    · rw [seedUsersLoop_step_fail1 g insOk orig i rem db (Bool.eq_false_iff.mpr h1)]
      rfl

/-- C10: the profile seeder invokes the text generator with a
500-character cap on every iteration, so (under Faker's contract that
`text(max_nb_chars=n)` returns at most `n` characters) every inserted
profile text has at most 500 characters. -/
theorem profile_text_within_cap (g : FakerOracle) (insOk : Nat → Bool) (db : UsersDB)
    (hcap : ∀ i n, (g.text i n).length ≤ n) :
    profileTextsWithin 500 (seed_users g insOk db).events = true :=
  seedUsersLoop_texts_within g insOk db hcap 20 0 db

/-- Witness for C10 with a concrete capped generator. -/
theorem profile_text_within_cap_witness :
    profileTextsWithin 500 (seed_users trivialFaker allOk ⟨[], [], 0⟩).events = true :=
  profile_text_within_cap trivialFaker allOk ⟨[], [], 0⟩
    (fun i n => by simp [trivialFaker])

/-- Counterexample to C8 as stated: the career seeder's average salary
is drawn by `random.randint(60000,180000)` on each run, so two runs
whose draws differ (60000 vs 60001, both legal draws) attempt different
insert tuples — the inserted column values are not the same constants
on every run. -/
theorem careers_salary_not_constant :
    (seed_careers (fun _ => 60000) allOk []).events ≠
      (seed_careers (fun _ => 60001) allOk []).events := by
  decide

/-- C8 (amended): each reference-data seeder inserts one row per tuple
of its fixed hardcoded list; across runs the achievements tuples are
identical constants, and the careers titles, descriptions and lifestyle
values are identical constants, while the careers average salary is the
run's fresh `randint` draw at each position (and so may differ between
runs). -/
theorem seeders_fixed_tuples_amended :
    (∀ t : List AchRow, (seed_achievements allOk t).events =
      [.insert "First Steps" "Completed first analysis" 50,
       .insert "Learner" "Took a course" 100,
       .commit, .closeCur, .closeConn, .printMsg "✅ Achievements seeded"]) ∧
    (∀ (sal : Nat → Nat) (t : List CareerRow), (seed_careers sal allOk t).events =
      [.insert "Data Scientist" "A career as Data Scientist" (sal 0) lifestyleJson,
       .insert "Frontend Developer" "A career as Frontend Developer" (sal 1) lifestyleJson,
       .insert "Backend Engineer" "A career as Backend Engineer" (sal 2) lifestyleJson,
       .insert "UX Designer" "A career as UX Designer" (sal 3) lifestyleJson,
       .insert "AI Researcher" "A career as AI Researcher" (sal 4) lifestyleJson,
       .commit, .closeCur, .closeConn, .printMsg "✅ Careers seeded"]) :=
  ⟨fun _ => rfl, fun _ _ => rfl⟩

end CareerMirror
